import Mathlib

/-!
Shallow embedding of the vize Vite plugin core
(npm/vite-plugin-vize/src: compiler.ts, index.ts, utils.ts).

The embedding models:
  * the JS `Map` used for the compile cache and the virtual-to-real table
    as an association list with JS `Map.set` / `Map.get` semantics;
  * node's `createHash("sha256") ... digest("hex")` (used by
    `generateScopeId`) as a full SHA-256 implementation over `Nat` bytes;
  * JS string primitives (`includes`, `replace` with a string pattern,
    `slice`, `split`, template literals, `JSON.stringify` on strings)
    as executable functions over `List Char` / `String`;
  * the plugin hooks (`configResolved`, `configureServer`, `buildStart`,
    `resolveId`, `load`, `handleHotUpdate`) as state transformers over a
    `PluginState`, with external collaborators (the filesystem and the
    native compiler) passed in as an explicit environment;
  * the behaviour of the two emitted runtime routines (the style-injection
    IIFE and the HMR accept callback) as small semantic functions over a
    DOM model, translated from the JS text that `generateOutput` emits.
-/

/-! ## JS Map model (association list, insertion order) -/

/-- JS `Map.get`: the value stored under the key, if any. -/
def mapGet {α : Type} (m : List (String × α)) (k : String) : Option α :=
  List.lookup k m

/-- JS `Map.has`. -/
def mapHas {α : Type} (m : List (String × α)) (k : String) : Bool :=
  (mapGet m k).isSome

/-- JS `Map.set`: replace in place when the key is present (keeping
insertion order), append otherwise. -/
def mapSet {α : Type} (m : List (String × α)) (k : String) (v : α) :
    List (String × α) :=
  if mapHas m k then m.map (fun p => if p.1 = k then (k, v) else p)
  else m ++ [(k, v)]

theorem lookup_replaceKey {α : Type} (m : List (String × α)) (k : String) (v : α) :
    List.lookup k (m.map (fun p => if p.1 = k then (k, v) else p)) =
      (List.lookup k m).map (fun _ => v) := by
  induction m with
  | nil => simp [List.lookup]
  | cons p t ih =>
    obtain ⟨p1, p2⟩ := p
    by_cases hpk : p1 = k
    · subst hpk
      simp only [List.map_cons, if_pos (show ((p1, p2) : String × α).1 = p1 from rfl)]
      simp [List.lookup]
    · have hkp : k ≠ p1 := fun h => hpk h.symm
      simp only [List.map_cons, if_neg hpk]
      simp [List.lookup, beq_eq_false_iff_ne.mpr hkp, ih]

theorem lookup_replaceKey_ne {α : Type} (m : List (String × α)) (k g : String)
    (v : α) (hgk : g ≠ k) :
    List.lookup g (m.map (fun p => if p.1 = k then (k, v) else p)) =
      List.lookup g m := by
  induction m with
  | nil => simp
  | cons p t ih =>
    obtain ⟨p1, p2⟩ := p
    by_cases hpk : p1 = k
    · subst hpk
      simp only [List.map_cons, if_pos (show ((p1, p2) : String × α).1 = p1 from rfl)]
      simp [List.lookup, beq_eq_false_iff_ne.mpr hgk, ih]
    · simp only [List.map_cons, if_neg hpk]
      by_cases hgp : g = p1
      · subst hgp
        simp [List.lookup]
      · simp [List.lookup, beq_eq_false_iff_ne.mpr hgp, ih]

theorem lookup_append_single {α : Type} (m : List (String × α)) (k g : String)
    (v : α) :
    List.lookup g (m ++ [(k, v)]) =
      match List.lookup g m with
      | some w => some w
      | none => if g = k then some v else none := by
  induction m with
  | nil =>
    by_cases hgk : g = k
    · subst hgk
      simp [List.lookup]
    · simp [List.lookup, beq_eq_false_iff_ne.mpr hgk, hgk]
  | cons p t ih =>
    obtain ⟨p1, p2⟩ := p
    by_cases hgp : g = p1
    · subst hgp
      simp [List.lookup]
    · simp [List.lookup, beq_eq_false_iff_ne.mpr hgp, ih]

theorem mapGet_mapSet {α : Type} (m : List (String × α)) (k g : String) (v : α) :
    mapGet (mapSet m k v) g = if g = k then some v else mapGet m g := by
  unfold mapSet mapHas mapGet
  by_cases hk : (List.lookup k m).isSome
  · rw [if_pos hk]
    by_cases hgk : g = k
    · subst hgk
      rw [if_pos rfl, lookup_replaceKey]
      obtain ⟨w, hw⟩ := Option.isSome_iff_exists.mp hk
      simp [hw]
    · rw [if_neg hgk, lookup_replaceKey_ne m k g v hgk]
  · rw [if_neg hk]
    rw [lookup_append_single]
    by_cases hgk : g = k
    · subst hgk
      have : List.lookup g m = none := Option.not_isSome_iff_eq_none.mp hk
      simp [this]
    · simp only [if_neg hgk]
      cases h : List.lookup g m <;> simp [hgk]

theorem mapHas_mapSet {α : Type} (m : List (String × α)) (k g : String) (v : α) :
    mapHas (mapSet m k v) g = (if g = k then true else mapHas m g) := by
  by_cases h : g = k <;> simp [mapHas, mapGet_mapSet, h]

theorem length_mapSet {α : Type} (m : List (String × α)) (k : String) (v : α) :
    (mapSet m k v).length = if mapHas m k then m.length else m.length + 1 := by
  by_cases h : mapHas m k <;> simp [mapSet, h]

/-! ## JS string primitives over character lists -/

/-- Does the list start with the pattern? (JS `startsWith` on the tail
under scan; building block for `includes` and `replace`). -/
def startsWithL : List Char → List Char → Bool
  | _, [] => true
  | [], _ :: _ => false
  | c :: cs, p :: ps => c == p && startsWithL cs ps

/-- JS `String.prototype.includes` with a string argument. -/
def containsL : List Char → List Char → Bool
  | [], pat => startsWithL [] pat
  | s@(_ :: cs), pat => startsWithL s pat || containsL cs pat

/-- JS `String.prototype.replace` with a *string* pattern: replaces only
the first occurrence, returns the input unchanged when the pattern does
not occur. -/
def replaceFirstL (pat rep : List Char) : List Char → List Char
  | [] => if startsWithL [] pat then rep else []
  | c :: cs =>
    if startsWithL (c :: cs) pat then rep ++ (c :: cs).drop pat.length
    else c :: replaceFirstL pat rep cs

/-- String-level wrapper for JS `includes`. -/
def containsS (s pat : String) : Bool := containsL s.data pat.data

/-- String-level wrapper for JS `replace` with a string pattern. -/
def replaceFirstS (s pat rep : String) : String :=
  String.mk (replaceFirstL pat.data rep.data s.data)

/-- JS `String.prototype.startsWith`. -/
def startsWithS (s pat : String) : Bool := startsWithL s.data pat.data

/-- JS `String.prototype.endsWith`. -/
def endsWithS (s pat : String) : Bool :=
  startsWithL s.data.reverse pat.data.reverse

/-- Characters before the first occurrence of the separator. -/
def takeUntilChar (sep : Char) : List Char → List Char
  | [] => []
  | c :: cs => if c = sep then [] else c :: takeUntilChar sep cs

/-- JS `s.split(sep)[0]` for a one-character separator. -/
def jsSplitHead (s : String) (sep : Char) : String :=
  String.mk (takeUntilChar sep s.data)

/-- Split a character list at every occurrence of the separator. -/
def splitChar (sep : Char) : List Char → List (List Char)
  | [] => [[]]
  | c :: cs =>
    if c = sep then [] :: splitChar sep cs
    else
      match splitChar sep cs with
      | [] => [[c]]
      | h :: t => (c :: h) :: t

/-- JS `s.split(sep)` for a one-character separator. -/
def splitOnCharS (s : String) (sep : Char) : List String :=
  (splitChar sep s.data).map String.mk

/-- Join strings with a separator (as JS `Array.prototype.join`). -/
def joinSep (sep : String) : List String → String
  | [] => ""
  | [x] => x
  | x :: xs => x ++ sep ++ joinSep sep xs

theorem startsWithL_iff (s pat : List Char) :
    startsWithL s pat = true ↔ ∃ t, s = pat ++ t := by
  induction pat generalizing s with
  | nil => simp [startsWithL]
  | cons p ps ih =>
    cases s with
    | nil =>
      simp [startsWithL]
    | cons c cs =>
      simp only [startsWithL, Bool.and_eq_true, beq_iff_eq, ih]
      constructor
      · rintro ⟨rfl, t, rfl⟩
        exact ⟨t, rfl⟩
      · rintro ⟨t, ht⟩
        obtain ⟨rfl, rfl⟩ : c = p ∧ cs = ps ++ t := by
          injection ht with h1 h2; exact ⟨h1, h2⟩
        exact ⟨rfl, t, rfl⟩

theorem containsL_iff (s pat : List Char) :
    containsL s pat = true ↔ ∃ a b, s = a ++ pat ++ b := by
  induction s with
  | nil =>
    simp only [containsL, startsWithL_iff]
    constructor
    · rintro ⟨t, ht⟩
      exact ⟨[], t, by simpa using ht⟩
    · rintro ⟨a, b, h⟩
      cases a with
      | nil => exact ⟨b, by simpa using h⟩
      | cons x xs => simp at h
  | cons c cs ih =>
    simp only [containsL, Bool.or_eq_true, startsWithL_iff, ih]
    constructor
    · rintro (⟨t, ht⟩ | ⟨a, b, h⟩)
      · exact ⟨[], t, by simpa using ht⟩
      · exact ⟨c :: a, b, by simp [h]⟩
    · rintro ⟨a, b, h⟩
      cases a with
      | nil => exact Or.inl ⟨b, by simpa using h⟩
      | cons x xs =>
        right
        simp only [List.cons_append, List.cons.injEq] at h
        exact ⟨xs, b, h.2⟩

theorem replaceFirstL_cons (pat rep : List Char) (c : Char) (cs : List Char) :
    replaceFirstL pat rep (c :: cs) =
      if startsWithL (c :: cs) pat then rep ++ (c :: cs).drop pat.length
      else c :: replaceFirstL pat rep cs := rfl

/-- Full first-occurrence specification of `replaceFirstL`: the pattern
occurs, the replacement happens at the *leftmost* occurrence, and the
tail after that occurrence (which may contain further occurrences) is
kept verbatim. -/
theorem replaceFirstL_spec (pat rep : List Char) (hp : pat ≠ []) :
    ∀ s : List Char, containsL s pat = true →
      ∃ a b : List Char, s = a ++ pat ++ b ∧
        replaceFirstL pat rep s = a ++ rep ++ b ∧
        ∀ a2 b2 : List Char, s = a2 ++ pat ++ b2 → a.length ≤ a2.length := by
  intro s
  induction s with
  | nil =>
    intro h
    cases pat with
    | nil => exact absurd rfl hp
    | cons p ps => simp [containsL, startsWithL] at h
  | cons c cs ih =>
    intro h
    by_cases hsw : startsWithL (c :: cs) pat = true
    · obtain ⟨t, ht⟩ := (startsWithL_iff _ _).mp hsw
      refine ⟨[], t, by simpa using ht, ?_, fun a2 b2 _ => Nat.zero_le _⟩
      rw [replaceFirstL_cons, if_pos hsw, ht, List.drop_left]
      simp
    · have hc : containsL cs pat = true := by
        have := (containsL_iff _ _).mp h
        obtain ⟨a, b, hab⟩ := this
        cases a with
        | nil =>
          exfalso
          apply hsw
          exact (startsWithL_iff _ _).mpr ⟨b, by simpa using hab⟩
        | cons x xs =>
          apply (containsL_iff _ _).mpr
          simp only [List.cons_append, List.cons.injEq] at hab
          exact ⟨xs, b, hab.2⟩
      obtain ⟨a, b, hab, hrep, hmin⟩ := ih hc
      refine ⟨c :: a, b, by simp [hab], ?_, ?_⟩
      · rw [replaceFirstL_cons, if_neg hsw, hrep]
        simp
      · intro a2 b2 h2
        cases a2 with
        | nil =>
          exfalso
          apply hsw
          exact (startsWithL_iff _ _).mpr ⟨b2, by simpa using h2⟩
        | cons x xs =>
          simp only [List.cons_append, List.cons.injEq] at h2
          simpa using Nat.succ_le_succ (hmin xs b2 h2.2)

/-! ## SHA-256 (model of node createHash("sha256") / digest("hex")) -/

/-- Right-rotation of a 32-bit word held in a `Nat`. -/
def rotr32 (x n : Nat) : Nat := ((x >>> n) ||| (x <<< (32 - n))) % 2 ^ 32

/-- SHA-256 small sigma 0. -/
def smallSigma0 (x : Nat) : Nat := (rotr32 x 7) ^^^ (rotr32 x 18) ^^^ (x >>> 3)

/-- SHA-256 small sigma 1. -/
def smallSigma1 (x : Nat) : Nat := (rotr32 x 17) ^^^ (rotr32 x 19) ^^^ (x >>> 10)

/-- SHA-256 big sigma 0. -/
def bigSigma0 (x : Nat) : Nat := (rotr32 x 2) ^^^ (rotr32 x 13) ^^^ (rotr32 x 22)

/-- SHA-256 big sigma 1. -/
def bigSigma1 (x : Nat) : Nat := (rotr32 x 6) ^^^ (rotr32 x 11) ^^^ (rotr32 x 25)

/-- SHA-256 choice function; the complement of `x` is taken within 32 bits. -/
def shaCh (x y z : Nat) : Nat := (x &&& y) ^^^ ((x ^^^ 4294967295) &&& z)

/-- SHA-256 majority function. -/
def shaMaj (x y z : Nat) : Nat := (x &&& y) ^^^ (x &&& z) ^^^ (y &&& z)

/-- The eight working words of the SHA-256 state. -/
structure Sha256State where
  h0 : Nat
  h1 : Nat
  h2 : Nat
  h3 : Nat
  h4 : Nat
  h5 : Nat
  h6 : Nat
  h7 : Nat

/-- SHA-256 initial hash value. -/
def shaIV : Sha256State :=
  ⟨1779033703, 3144134277, 1013904242, 2773480762,
   1359893119, 2600822924, 528734635, 1541459225⟩

/-- The 64 SHA-256 round constants. -/
def shaK : List Nat :=
  [1116352408, 1899447441, 3049323471, 3921009573, 961987163,
   1508970993, 2453635748, 2870763221, 3624381080, 310598401,
   607225278, 1426881987, 1925078388, 2162078206, 2614888103,
   3248222580, 3835390401, 4022224774, 264347078, 604807628,
   770255983, 1249150122, 1555081692, 1996064986, 2554220882,
   2821834349, 2952996808, 3210313671, 3336571891, 3584528711,
   113926993, 338241895, 666307205, 773529912, 1294757372,
   1396182291, 1695183700, 1986661051, 2177026350, 2456956037,
   2730485921, 2820302411, 3259730800, 3345764771, 3516065817,
   3600352804, 4094571909, 275423344, 430227734, 506948616,
   659060556, 883997877, 958139571, 1322822218, 1537002063,
   1747873779, 1955562222, 2024104815, 2227730452, 2361852424,
   2428436474, 2756734187, 3204031479, 3329325298]

/-- Big-endian 32-bit word number `i` of a 64-byte block. -/
def bytesToWord (block : List Nat) (i : Nat) : Nat :=
  ((block.getD (4 * i) 0) <<< 24) ||| ((block.getD (4 * i + 1) 0) <<< 16) |||
    ((block.getD (4 * i + 2) 0) <<< 8) ||| block.getD (4 * i + 3) 0

/-- The 64-entry message schedule of one block. -/
def msgSchedule (block : List Nat) : List Nat :=
  let w0 := (List.range 16).map (bytesToWord block)
  (List.range 48).foldl
    (fun w _ =>
      let n := w.length
      let wn := (smallSigma1 (w.getD (n - 2) 0) + w.getD (n - 7) 0 +
        smallSigma0 (w.getD (n - 15) 0) + w.getD (n - 16) 0) % 2 ^ 32
      w ++ [wn]) w0

/-- One SHA-256 round on the working variables. -/
def compressRound (s : Sha256State) (k w : Nat) : Sha256State :=
  let t1 := (s.h7 + bigSigma1 s.h4 + shaCh s.h4 s.h5 s.h6 + k + w) % 2 ^ 32
  let t2 := (bigSigma0 s.h0 + shaMaj s.h0 s.h1 s.h2) % 2 ^ 32
  ⟨(t1 + t2) % 2 ^ 32, s.h0, s.h1, s.h2, (s.h3 + t1) % 2 ^ 32, s.h4, s.h5, s.h6⟩

/-- Process one 64-byte block. -/
def compressBlock (s : Sha256State) (block : List Nat) : Sha256State :=
  let w := msgSchedule block
  let f := (shaK.zip w).foldl (fun st p => compressRound st p.1 p.2) s
  ⟨(s.h0 + f.h0) % 2 ^ 32, (s.h1 + f.h1) % 2 ^ 32,
   (s.h2 + f.h2) % 2 ^ 32, (s.h3 + f.h3) % 2 ^ 32,
   (s.h4 + f.h4) % 2 ^ 32, (s.h5 + f.h5) % 2 ^ 32,
   (s.h6 + f.h6) % 2 ^ 32, (s.h7 + f.h7) % 2 ^ 32⟩

/-- The message length in bits as eight big-endian bytes. -/
def lenBytes (n : Nat) : List Nat :=
  [n / 2 ^ 56 % 256, n / 2 ^ 48 % 256, n / 2 ^ 40 % 256, n / 2 ^ 32 % 256,
   n / 2 ^ 24 % 256, n / 2 ^ 16 % 256, n / 2 ^ 8 % 256, n % 256]

/-- SHA-256 padding: append 0x80, zero-fill to 56 mod 64, then the
bit length as eight big-endian bytes. -/
def padMessage (msg : List Nat) : List Nat :=
  let len := msg.length
  let zeros := (64 - (len + 9) % 64) % 64
  msg ++ [128] ++ List.replicate zeros 0 ++ lenBytes (len * 8)

/-- Split the padded message into 64-byte blocks. -/
def toBlocks (l : List Nat) : List (List Nat) :=
  if h : l = [] then [] else
    l.take 64 :: toBlocks (l.drop 64)
termination_by l.length
decreasing_by
  have : 0 < l.length := List.length_pos.mpr h
  simp only [List.length_drop]
  omega

/-- Big-endian bytes of one 32-bit state word. -/
def wordBytes (w : Nat) : List Nat :=
  [w / 2 ^ 24 % 256, w / 2 ^ 16 % 256, w / 2 ^ 8 % 256, w % 256]

/-- The 32 digest bytes of a byte message. -/
def sha256Bytes (msg : List Nat) : List Nat :=
  let f := (toBlocks (padMessage msg)).foldl compressBlock shaIV
  wordBytes f.h0 ++ wordBytes f.h1 ++ wordBytes f.h2 ++ wordBytes f.h3 ++
    wordBytes f.h4 ++ wordBytes f.h5 ++ wordBytes f.h6 ++ wordBytes f.h7

/-- UTF-8 bytes of a string, as `Nat`s (node hashes the utf-8 encoding). -/
def utf8Bytes (s : String) : List Nat := s.toUTF8.toList.map (fun b => b.toNat)

/-- Lowercase hex digits, as emitted by digest("hex"). -/
def hexDigits : List Char := "0123456789abcdef".data

/-- Hex digit for a value below 16 (out-of-range values never occur). -/
def hexChar (n : Nat) : Char := hexDigits.getD n '0'

/-- Two lowercase hex characters per byte. -/
def bytesToHex (bs : List Nat) : List Char :=
  bs.bind (fun b => [hexChar (b / 16), hexChar (b % 16)])

/-- Model of node `createHash("sha256").update(s).digest("hex")`. -/
def sha256Hex (s : String) : String :=
  String.mk (bytesToHex (sha256Bytes (utf8Bytes s)))

/-- JS `String.prototype.slice(0, n)`. -/
def jsSlice (s : String) (n : Nat) : String := String.mk (s.data.take n)

/-- utils.ts generateScopeId: first 8 hex characters of the SHA-256 of
the filename. -/
def generateScopeId (filename : String) : String :=
  jsSlice (sha256Hex filename) 8

/-! ## The compiled artifact and the scoped-style pre-check -/

/-- compiler.ts CompiledModule: the cached artifact of one file. -/
structure CompiledModule where
  code : String
  css : Option String
  scopeId : String
  hasScoped : Bool

/-- JS regex word character (the regex has no unicode flag). -/
def isWordChar (c : Char) : Bool := c.isAlpha || c.isDigit || c = '_'

/-- Word boundary after a word character: next char absent or non-word. -/
def boundaryAfter : List Char → Bool
  | [] => true
  | c :: _ => !(isWordChar c)

/-- Scan the `[^>]*` run after a style tag for a `\bscoped\b` match;
`prev` is the character just before the current position. -/
def scanScoped : Char → List Char → Bool
  | _, [] => false
  | prev, c :: cs =>
    (!(isWordChar prev) && startsWithL (c :: cs) ("scoped".data) &&
      boundaryAfter ((c :: cs).drop 6)) ||
    (if c = '>' then false else scanScoped c cs)

/-- Search for a match of the style-tag pattern anywhere in the text. -/
def findStyleScoped : List Char → Bool
  | [] => false
  | c :: cs =>
    (startsWithL (c :: cs) ("<style".data) && scanScoped 'e' ((c :: cs).drop 6)) ||
    findStyleScoped cs

/-- compiler.ts line 37: the regex test deciding whether the source has a
scoped style block. -/
def hasScopedMarker (content : String) : Bool := findStyleScoped content.data

/-! ## Output synthesis (utils.ts generateOutput) -/

/-- Escape of one character inside a JSON string literal, as produced by
JS JSON.stringify on a string value. -/
def jsonEscapeChar (c : Char) : List Char :=
  if c = '"' then ['\\', '"']
  else if c = '\\' then ['\\', '\\']
  else if c = '\x08' then ['\\', 'b']
  else if c = '\t' then ['\\', 't']
  else if c = '\n' then ['\\', 'n']
  else if c = '\x0c' then ['\\', 'f']
  else if c = '\r' then ['\\', 'r']
  else if c.toNat < 32 then
    ['\\', 'u', '0', '0', hexChar (c.toNat / 16), hexChar (c.toNat % 16)]
  else [c]

/-- JS JSON.stringify applied to a string value. -/
def jsonString (s : String) : String :=
  "\"" ++ String.mk (s.data.bind jsonEscapeChar) ++ "\""

/-- JS truthiness of an optional string (undefined and the empty string
are falsy). -/
def jsTruthy : Option String → Bool
  | none => false
  | some s => s != ""

/-- The default-export marker searched for by generateOutput. -/
def EXPORT_MARKER : String := "export default"

/-- utils.ts lines 280-284: does the artifact's code contain the
default-export marker? -/
def hasDefaultExport (code : String) : Bool := containsS code EXPORT_MARKER

/-- utils.ts lines 281-284: rewrite the first occurrence of the marker to
a local binding and append one re-export of that binding. -/
def rewriteExportDefault (code : String) : String :=
  if hasDefaultExport code then
    replaceFirstS code EXPORT_MARKER "const _sfc_main =" ++
      "\nexport default _sfc_main;"
  else code

/-- The deterministic style-element id for a scope id
(utils.ts line 289, the template literal inside JSON.stringify). -/
def styleElemId (scopeId : String) : String := "vize-style-" ++ scopeId

/-- utils.ts lines 290-306: the prepended style-injection block, a
byte-for-byte transcription of the template literal (braces and single
quotes written via escapes). -/
def cssBlock (css scopeId : String) : String :=
  "\nconst __vize_css__ = " ++ jsonString css ++
  ";\nconst __vize_css_id__ = " ++ jsonString (styleElemId scopeId) ++
  ";\n(function() \x7b\n  if (typeof document !== \x27undefined\x27) \x7b\n    let style = document.getElementById(__vize_css_id__);\n    if (!style) \x7b\n      style = document.createElement(\x27style\x27);\n      style.id = __vize_css_id__;\n      style.textContent = __vize_css__;\n      document.head.appendChild(style);\n    \x7d else \x7b\n      style.textContent = __vize_css__;\n    \x7d\n  \x7d\n\x7d)();\n"

/-- Text of the HMR block before the interpolated scope id
(utils.ts lines 311-313). -/
def hmrBlockPre : String :=
  "\nif (import.meta.hot) \x7b\n  _sfc_main.__hmrId = "

/-- Text of the HMR block after the interpolated scope id
(utils.ts lines 313-324). -/
def hmrBlockPost : String :=
  ";\n  import.meta.hot.accept((mod) => \x7b\n    if (!mod) return;\n    const \x7b default: updated \x7d = mod;\n    if (typeof __VUE_HMR_RUNTIME__ !== \x27undefined\x27) \x7b\n      __VUE_HMR_RUNTIME__.reload(_sfc_main.__hmrId, updated);\n    \x7d\n  \x7d);\n  if (typeof __VUE_HMR_RUNTIME__ !== \x27undefined\x27) \x7b\n    __VUE_HMR_RUNTIME__.createRecord(_sfc_main.__hmrId, _sfc_main);\n  \x7d\n\x7d"

/-- utils.ts lines 311-324: the appended HMR acceptance block, with the
scope id interpolated through JSON.stringify as the hot-reload id. -/
def hmrBlock (scopeId : String) : String :=
  hmrBlockPre ++ jsonString scopeId ++ hmrBlockPost

/-- utils.ts lines 277-307: generateOutput before the HMR step (the
default-export rewrite followed by the conditional CSS prepend). -/
def baseOutput (c : CompiledModule) : String :=
  let output := rewriteExportDefault c.code
  if jsTruthy c.css then cssBlock (c.css.getD "") c.scopeId ++ output
  else output

/-- utils.ts generateOutput: full synthesis of the served module text. -/
def generateOutput (compiled : CompiledModule) (isProduction isDev : Bool) :
    String :=
  let output := baseOutput compiled
  if !isProduction && isDev && hasDefaultExport compiled.code then
    output ++ hmrBlock compiled.scopeId
  else output

/-! ## Semantics of the two emitted runtime routines -/

/-- DOM model: the document's style elements as (element id, text content)
pairs in document order; getElementById returns the first match. -/
def domUpdateFirst : List (String × String) → String → String →
    List (String × String)
  | [], _, _ => []
  | (k, v) :: t, i, css =>
    if k = i then (k, css) :: t else (k, v) :: domUpdateFirst t i css

/-- Behaviour of the emitted style-injection IIFE (cssBlock): set the
text content of the existing element with the id, or append a fresh
style element carrying that id. -/
def styleInject (dom : List (String × String)) (elemId css : String) :
    List (String × String) :=
  if (List.lookup elemId dom).isSome then domUpdateFirst dom elemId css
  else dom ++ [(elemId, css)]

/-- Number of style elements in the document carrying the given id. -/
def countId (dom : List (String × String)) (i : String) : Nat :=
  dom.countP (fun p => p.1 = i)

/-- A hot-updated JS module handed to the accept callback: only its
default export matters to the emitted code. -/
structure JsModule where
  defaultExport : String

/-- What the emitted accept callback does with the host HMR runtime. -/
inductive HmrAction
  | noop
  | reload (hmrId : String) (updated : String)
deriving DecidableEq

/-- Behaviour of the accept callback emitted in hmrBlock: an absent
updated module does nothing; otherwise the updated default export is
handed to the framework reload hook when the runtime exists. -/
def hmrAccept (hmrId : String) (updated : Option JsModule)
    (runtimePresent : Bool) : HmrAction :=
  match updated with
  | none => HmrAction.noop
  | some m =>
    if runtimePresent then HmrAction.reload hmrId m.defaultExport
    else HmrAction.noop

/-! ## The compile invoker (compiler.ts compileFile) -/

/-- Result shape of the opaque native compiler call. -/
structure CompileResult where
  code : String
  css : Option String
  errors : List String
  warnings : List String

/-- External collaborators of the invoker: the filesystem (a failing read
throws, modeled as none) and the native compileSfc call (which may
itself throw, modeled as Except; its arguments are the source text, the
filename and the optional scope-id attribute value). -/
structure CompileEnv where
  readFile : String → Option String
  compileSfc : String → String → Option String → Except String CompileResult

/-- compiler.ts compileFile as a cache transformer: none models a thrown
exception (failed read or a throwing native call); on a returned result
the artifact is built and written to the cache *unconditionally* - a
non-empty error list is only logged (lines 46-49) and does not suppress
the cache.set on line 64. -/
def compileFileM (env : CompileEnv) (filePath : String) (cache : List (String × CompiledModule))
    (source : Option String) : Option (CompiledModule × List (String × CompiledModule)) :=
  match (match source with | some s => some s | none => env.readFile filePath) with
  | none => none
  | some content =>
    let scopeId := generateScopeId filePath
    let hasScoped := hasScopedMarker content
    match env.compileSfc content filePath
        (if hasScoped then some ("data-v-" ++ scopeId) else none) with
    | Except.error _ => none
    | Except.ok result =>
      let compiled : CompiledModule :=
        ⟨result.code, result.css, scopeId, hasScoped⟩
      some (compiled, mapSet cache filePath compiled)

/-- Does the compile attempt for this file return a non-empty error list
(without throwing)? This is what compiler.ts logs on lines 46-49. -/
def reportsErrors (env : CompileEnv) (filePath : String) : Bool :=
  match env.readFile filePath with
  | none => false
  | some content =>
    let scopeId := generateScopeId filePath
    let hasScoped := hasScopedMarker content
    match env.compileSfc content filePath
        (if hasScoped then some ("data-v-" ++ scopeId) else none) with
    | Except.error _ => false
    | Except.ok result => !(result.errors.isEmpty)

/-- Does the compile attempt for this file complete without throwing?
(The condition under which index.ts compileAll counts a success.) -/
def compileOk (env : CompileEnv) (filePath : String) : Bool :=
  (compileFileM env filePath [] none).isSome

/-- index.ts compileAll loop body over the discovered files, threading the
cache and the success/error counters. -/
def compileAllGo (env : CompileEnv) :
    List String → List (String × CompiledModule) → Nat → Nat →
      List (String × CompiledModule) × Nat × Nat
  | [], cache, s, e => (cache, s, e)
  | f :: fs, cache, s, e =>
    match compileFileM env f cache none with
    | some (_, cache2) => compileAllGo env fs cache2 (s + 1) e
    | none => compileAllGo env fs cache s (e + 1)

/-- index.ts compileAll (lines 97-127): fold compileFile over the file set
discovered by the glob scan, starting the counters at zero; per-file
throws are caught, counted and skipped. -/
def compileAllFn (env : CompileEnv) (files : List String)
    (cache : List (String × CompiledModule)) :
    List (String × CompiledModule) × Nat × Nat :=
  compileAllGo env files cache 0 0

/-! ## Path model (node path, posix flavour, used by resolveVuePath) -/

/-- node path.isAbsolute (posix). -/
def pathIsAbsolute (p : String) : Bool := startsWithS p "/"

/-- Normalization stack walk over the slash-separated components. -/
def normalizeParts (absolute : Bool) : List String → List String → List String
  | acc, [] => acc.reverse
  | acc, p :: ps =>
    if p = "" || p = "." then normalizeParts absolute acc ps
    else if p = ".." then
      match acc with
      | [] =>
        if absolute then normalizeParts absolute [] ps
        else normalizeParts absolute [".."] ps
      | q :: t =>
        if q = ".." then normalizeParts absolute (".." :: q :: t) ps
        else normalizeParts absolute t ps
    else normalizeParts absolute (p :: acc) ps

/-- node path.normalize (posix). -/
def pathNormalize (p : String) : String :=
  let abs := pathIsAbsolute p
  let parts := normalizeParts abs [] (splitOnCharS p '/')
  let core := joinSep "/" parts
  if abs then "/" ++ core
  else if core = "" then "." else core

/-- node path.resolve of a relative path against a base (posix; the
plugin only resolves against absolute bases). -/
def pathResolve (base p : String) : String :=
  if pathIsAbsolute p then pathNormalize p
  else pathNormalize (base ++ "/" ++ p)

/-- node path.dirname (posix). -/
def pathDirname (p : String) : String :=
  match List.findIdx? (fun c => c = '/') p.data.reverse with
  | none => "."
  | some i =>
    let keep := p.data.take (p.data.length - 1 - i)
    if keep.isEmpty then "/" else String.mk keep

/-! ## The plugin instance (index.ts vize) -/

/-- index.ts line 78: the sentinel prefixed to real paths to form
virtual module ids. -/
def VIRTUAL_SENTINEL : String := "\x00vize:"

/-- JS id.slice(VIRTUAL_PREFIX.length): decode a virtual id by stripping
the sentinel. -/
def dropSentinel (id : String) : String :=
  String.mk (id.data.drop VIRTUAL_SENTINEL.length)

/-- index.ts lines 170-174: form the virtual module id of a real path. -/
def toVirtualId (p : String) : String := VIRTUAL_SENTINEL ++ p

/-- utils.ts createFilter with the plugin's default options: include
ids matching the component extension, exclude node_modules. -/
def defaultFilter (id : String) : Bool :=
  endsWithS id ".vue" && !(containsS id "node_modules")

/-- The per-instance mutable state closed over by the plugin's hooks:
the compile cache, the virtual-to-real table, and the config captured in
configResolved / configureServer. -/
structure PluginState where
  cache : List (String × CompiledModule)
  virtualToReal : List (String × String)
  root : String
  isProduction : Bool
  serverActive : Bool

/-- The state as created on entry to vize(): both maps empty, no server,
config not yet resolved. -/
def initState : PluginState :=
  { cache := [], virtualToReal := [], root := "",
    isProduction := false, serverActive := false }

/-- index.ts line 196 (and 184-186): decode a virtual id to a real path -
explicit table lookup, falling back to stripping the sentinel. -/
def toRealPath (s : PluginState) (id : String) : String :=
  (mapGet s.virtualToReal id).getD (dropSentinel id)

/-- index.ts resolveVuePath (lines 129-143). -/
def resolveVuePath (s : PluginState) (id : String)
    (importer : Option String) : String :=
  let resolved :=
    if pathIsAbsolute id then id
    else
      match importer with
      | some imp =>
        let realImporter :=
          if startsWithS imp VIRTUAL_SENTINEL then
            (mapGet s.virtualToReal imp).getD (dropSentinel imp)
          else imp
        pathResolve (pathDirname realImporter) id
      | none => pathResolve s.root id
  pathNormalize resolved

/-- index.ts resolveId hook (lines 162-179), as a function returning the
hook's answer together with the successor state (it inserts into the
virtual-to-real table when it hands out a virtual id). -/
def resolveIdFn (s : PluginState) (id : String) (importer : Option String) :
    Option String × PluginState :=
  if containsS id "?vue&type=style" then (some id, s)
  else if endsWithS id ".vue" then
    if mapHas s.cache (resolveVuePath s id importer) then
      (some (VIRTUAL_SENTINEL ++ resolveVuePath s id importer),
        { s with virtualToReal := (mapSet s.virtualToReal
            (VIRTUAL_SENTINEL ++ resolveVuePath s id importer)
            (resolveVuePath s id importer)) })
    else (none, s)
  else (none, s)

/-- index.ts lines 183-186: the real path consulted for a style-query id
(text before the first question mark, then virtual-id decoding). -/
def styleRealPath (s : PluginState) (id : String) : String :=
  let filename := jsSplitHead id '?'
  if startsWithS filename VIRTUAL_SENTINEL then
    (mapGet s.virtualToReal filename).getD (dropSentinel filename)
  else filename

/-- The three shapes a load hook answer can take: null (not handled), a
bare string, or a code-with-map object (the plugin always passes a null
map, so only the code is modeled). -/
inductive LoadResult
  | jsNull
  | text (s : String)
  | moduleCode (code : String)
deriving DecidableEq

/-- index.ts load hook (lines 181-208); it never mutates the state. -/
def loadFn (s : PluginState) (id : String) : LoadResult :=
  if containsS id "?vue&type=style" then
    match mapGet s.cache (styleRealPath s id) with
    | some compiled =>
      match compiled.css with
      | some css => if css != "" then LoadResult.text css else LoadResult.text ""
      | none => LoadResult.text ""
    | none => LoadResult.text ""
  else if startsWithS id VIRTUAL_SENTINEL then
    match mapGet s.cache (toRealPath s id) with
    | some compiled =>
      LoadResult.moduleCode (generateOutput compiled s.isProduction s.serverActive)
    | none => LoadResult.jsNull
  else LoadResult.jsNull

/-- index.ts handleHotUpdate (lines 210-233) restricted to its effect on
the plugin state: recompile the changed file with the freshly read
source, leaving the cache untouched when the compile throws; the module
lookup it returns reads only host state. The plugin is modeled with its
default include/exclude filter. -/
def handleHotUpdateFn (env : CompileEnv) (s : PluginState) (file : String)
    (source : String) : PluginState :=
  if endsWithS file ".vue" && defaultFilter file then
    match compileFileM env file s.cache (some source) with
    | some (_, cache2) => { s with cache := cache2 }
    | none => s
  else s

/-- index.ts buildStart (lines 158-160): run the scan-and-compile pass;
the discovered file list is produced by the external glob. -/
def buildStartFn (env : CompileEnv) (files : List String)
    (s : PluginState) : PluginState :=
  { s with cache := (compileAllFn env files s.cache).1 }

/-- One invocation of any state-touching plugin hook. The hook inputs
(config, discovered files, ids, file contents, the external compiler) are
arbitrary. -/
inductive Step : PluginState → PluginState → Prop
  | configResolved (s : PluginState) (prod : Bool) (r : String) :
      Step s { s with isProduction := prod, root := r }
  | configureServer (s : PluginState) :
      Step s { s with serverActive := true }
  | buildStart (s : PluginState) (env : CompileEnv) (files : List String) :
      Step s (buildStartFn env files s)
  | resolveId (s : PluginState) (id : String) (importer : Option String) :
      Step s (resolveIdFn s id importer).2
  | handleHotUpdate (s : PluginState) (env : CompileEnv) (file source : String) :
      Step s (handleHotUpdateFn env s file source)

/-- States the plugin instance can actually be in: reachable from the
fresh instance state by hook invocations. -/
inductive Reachable : PluginState → Prop
  | init : Reachable initState
  | step (s t : PluginState) : Reachable s → Step s t → Reachable t

/-! ## Registry invariant -/

/-- Every entry of the virtual-to-real table pairs a key of the shape
sentinel-plus-path with exactly that path. -/
def regWellFormed (s : PluginState) : Prop :=
  ∀ kv ∈ s.virtualToReal, kv.1 = VIRTUAL_SENTINEL ++ kv.2

theorem mem_mapSet {α : Type} (m : List (String × α)) (k : String) (v : α)
    (p : String × α) (hp : p ∈ mapSet m k v) : p ∈ m ∨ p = (k, v) := by
  unfold mapSet at hp
  by_cases h : mapHas m k
  · rw [if_pos h] at hp
    obtain ⟨q, hq, hfq⟩ := List.mem_map.mp hp
    by_cases hqk : q.1 = k
    · right
      rw [if_pos hqk] at hfq
      exact hfq.symm
    · left
      rw [if_neg hqk] at hfq
      exact hfq ▸ hq
  · rw [if_neg h] at hp
    rcases List.mem_append.mp hp with h1 | h1
    · exact Or.inl h1
    · exact Or.inr (List.mem_singleton.mp h1)

theorem resolveIdFn_virtualToReal (s : PluginState) (id : String)
    (importer : Option String) :
    (resolveIdFn s id importer).2.virtualToReal = s.virtualToReal ∨
      (resolveIdFn s id importer).2.virtualToReal =
        mapSet s.virtualToReal
          (VIRTUAL_SENTINEL ++ resolveVuePath s id importer)
          (resolveVuePath s id importer) := by
  unfold resolveIdFn
  split
  · exact Or.inl rfl
  · split
    · split
      · exact Or.inr rfl
      · exact Or.inl rfl
    · exact Or.inl rfl

theorem handleHotUpdateFn_virtualToReal (env : CompileEnv) (s : PluginState)
    (file source : String) :
    (handleHotUpdateFn env s file source).virtualToReal = s.virtualToReal := by
  unfold handleHotUpdateFn
  split
  · split <;> rfl
  · rfl

theorem step_regWellFormed {s t : PluginState} (hs : regWellFormed s)
    (st : Step s t) : regWellFormed t := by
  cases st with
  | configResolved prod r => exact hs
  | configureServer => exact hs
  | buildStart env files => exact hs
  | handleHotUpdate env file source =>
    intro kv hkv
    rw [handleHotUpdateFn_virtualToReal] at hkv
    exact hs kv hkv
  | resolveId id importer =>
    intro kv hkv
    rcases resolveIdFn_virtualToReal s id importer with h | h
    · exact hs kv (h ▸ hkv)
    · rw [h] at hkv
      rcases mem_mapSet _ _ _ _ hkv with h1 | h1
      · exact hs kv h1
      · rw [h1]

theorem reachable_regWellFormed {s : PluginState} (h : Reachable s) :
    regWellFormed s := by
  induction h with
  | init => intro kv hkv; cases hkv
  | step s t _ hst ih => exact step_regWellFormed ih hst

/-- Stripping the sentinel is a left inverse of forming a virtual id. -/
theorem dropSentinel_append (p : String) :
    dropSentinel (VIRTUAL_SENTINEL ++ p) = p := by
  unfold dropSentinel
  rw [String.data_append]
  rw [show VIRTUAL_SENTINEL.length = VIRTUAL_SENTINEL.data.length from rfl]
  rw [List.drop_left]

theorem lookup_mem {α : Type} (m : List (String × α)) (k : String) (v : α)
    (h : List.lookup k m = some v) : (k, v) ∈ m := by
  induction m with
  | nil => simp [List.lookup] at h
  | cons p t ih =>
    obtain ⟨p1, p2⟩ := p
    by_cases hk : k = p1
    · subst hk
      simp [List.lookup] at h
      simp [h]
    · simp [List.lookup, beq_eq_false_iff_ne.mpr hk] at h
      exact List.mem_cons_of_mem _ (ih h)

theorem string_append_left_cancel {a b c : String} (h : a ++ b = a ++ c) :
    b = c := by
  have hd : a.data ++ b.data = a.data ++ c.data := by
    rw [← String.data_append, ← String.data_append, h]
  exact congrArg String.mk (List.append_cancel_left hd)

/-! ## Compile-pass lemmas -/

theorem compileFileM_shape (env : CompileEnv) (f : String)
    (cache : List (String × CompiledModule)) (src : Option String)
    (m : CompiledModule) (c2 : List (String × CompiledModule))
    (h : compileFileM env f cache src = some (m, c2)) :
    c2 = mapSet cache f m := by
  unfold compileFileM at h
  rcases src with _ | s
  · rcases hr : env.readFile f with _ | content
    · simp [hr] at h
    · simp only [hr] at h
      rcases hc : env.compileSfc content f
          (if hasScopedMarker content then
            some ("data-v-" ++ generateScopeId f) else none) with e | r
      · simp [hc] at h
      · simp only [hc] at h
        obtain ⟨h1, h2⟩ := Prod.mk.injEq .. ▸ Option.some.injEq .. ▸ h
        rw [← h2, ← h1]
  · rcases hc : env.compileSfc s f
        (if hasScopedMarker s then
          some ("data-v-" ++ generateScopeId f) else none) with e | r
    · simp [hc] at h
    · simp only [hc] at h
      obtain ⟨h1, h2⟩ := Prod.mk.injEq .. ▸ Option.some.injEq .. ▸ h
      rw [← h2, ← h1]

theorem compileFileM_isSome_congr (env : CompileEnv) (f : String)
    (cache cache' : List (String × CompiledModule)) (src : Option String) :
    (compileFileM env f cache src).isSome =
      (compileFileM env f cache' src).isSome := by
  unfold compileFileM
  rcases src with _ | s
  · rcases hr : env.readFile f with _ | content
    · rfl
    · rcases hc : env.compileSfc content f
          (if hasScopedMarker content then
            some ("data-v-" ++ generateScopeId f) else none) with e | r
      · simp [hc]
      · simp [hc]
  · rcases hc : env.compileSfc s f
        (if hasScopedMarker s then
          some ("data-v-" ++ generateScopeId f) else none) with e | r
    · simp [hc]
    · simp [hc]

theorem compileAllGo_spec (env : CompileEnv) :
    ∀ (files : List String) (cache : List (String × CompiledModule))
      (s e : Nat),
      files.Nodup → (∀ f ∈ files, mapHas cache f = false) →
      (compileAllGo env files cache s e).1.length =
          cache.length + files.countP (compileOk env) ∧
        (compileAllGo env files cache s e).2.1 =
          s + files.countP (compileOk env) ∧
        (compileAllGo env files cache s e).2.2 =
          e + (files.length - files.countP (compileOk env)) := by
  intro files
  induction files with
  | nil => intro cache s e _ _; simp [compileAllGo]
  | cons f fs ih =>
    intro cache s e hnd hfresh
    have hndf : fs.Nodup := (List.nodup_cons.mp hnd).2
    have hfmem : f ∉ fs := (List.nodup_cons.mp hnd).1
    rcases hc : compileFileM env f cache none with _ | mc
    · have hok : compileOk env f = false := by
        unfold compileOk
        rw [compileFileM_isSome_congr env f [] cache none, hc]
        rfl
      have hcnt := List.countP_le_length (p := compileOk env) (l := fs)
      have hcount : List.countP (compileOk env) (f :: fs) =
          List.countP (compileOk env) fs := by
        rw [List.countP_cons, hok]
        simp
      have := ih cache s (e + 1) hndf (fun g hg => hfresh g (List.mem_cons_of_mem _ hg))
      simp only [compileAllGo, hc]
      refine ⟨?_, ?_, ?_⟩
      · rw [this.1, hcount]
      · rw [this.2.1, hcount]
      · rw [this.2.2, hcount]
        simp only [List.length_cons]
        omega
    · obtain ⟨m, c2⟩ := mc
      have hok : compileOk env f = true := by
        unfold compileOk
        rw [compileFileM_isSome_congr env f [] cache none, hc]
        rfl
      have hshape := compileFileM_shape env f cache none m c2 hc
      have hlen : c2.length = cache.length + 1 := by
        rw [hshape, length_mapSet, if_neg]
        rw [hfresh f (List.mem_cons_self f fs)]
        simp
      have hfresh2 : ∀ g ∈ fs, mapHas c2 g = false := by
        intro g hg
        rw [hshape, mapHas_mapSet, if_neg]
        · exact hfresh g (List.mem_cons_of_mem _ hg)
        · intro hgf
          exact hfmem (hgf ▸ hg)
      have := ih c2 (s + 1) e hndf hfresh2
      have hcnt := List.countP_le_length (p := compileOk env) (l := fs)
      have hcount : List.countP (compileOk env) (f :: fs) =
          List.countP (compileOk env) fs + 1 := by
        rw [List.countP_cons, hok]
        simp
      simp only [compileAllGo, hc]
      refine ⟨?_, ?_, ?_⟩
      · rw [this.1, hlen, hcount]
        omega
      · rw [this.2.1, hcount]
        omega
      · rw [this.2.2, hcount]
        simp only [List.length_cons]
        omega

/-! ## Style-injection lemmas -/

theorem countId_domUpdateFirst (dom : List (String × String)) (i css j : String) :
    countId (domUpdateFirst dom i css) j = countId dom j := by
  induction dom with
  | nil => rfl
  | cons p t ih =>
    obtain ⟨k, v⟩ := p
    unfold domUpdateFirst
    by_cases hk : k = i
    · rw [if_pos hk]
      simp [countId, List.countP_cons]
    · rw [if_neg hk]
      simp only [countId, List.countP_cons]
      unfold countId at ih
      rw [ih]

theorem lookup_none_not_mem {α : Type} (m : List (String × α)) (k : String)
    (h : List.lookup k m = none) : ∀ v, (k, v) ∉ m := by
  induction m with
  | nil => intro v hv; cases hv
  | cons p t ih =>
    obtain ⟨p1, p2⟩ := p
    intro v hv
    by_cases hk : k = p1
    · subst hk
      simp [List.lookup] at h
    · simp only [List.lookup, beq_eq_false_iff_ne.mpr hk] at h
      rcases List.mem_cons.mp hv with h1 | h1
      · exact hk (congrArg Prod.fst h1)
      · exact ih h v h1

theorem countId_pos_of_lookup {dom : List (String × String)} {i : String}
    (h : (List.lookup i dom).isSome = true) : 1 ≤ countId dom i := by
  obtain ⟨v, hv⟩ := Option.isSome_iff_exists.mp h
  have hm : (i, v) ∈ dom := lookup_mem dom i v hv
  have : 0 < List.countP (fun p => decide (p.1 = i)) dom :=
    List.countP_pos.mpr ⟨(i, v), hm, by simp⟩
  simpa [countId] using this

theorem countId_zero_of_lookup_none {dom : List (String × String)} {i : String}
    (h : List.lookup i dom = none) : countId dom i = 0 := by
  apply List.countP_eq_zero.mpr
  intro p hp hpi
  obtain ⟨k, v⟩ := p
  have : k = i := by simpa using hpi
  exact lookup_none_not_mem dom i h v (this ▸ hp)

theorem countId_styleInject (dom : List (String × String)) (i css : String) :
    countId (styleInject dom i css) i = max (countId dom i) 1 := by
  unfold styleInject
  by_cases h : (List.lookup i dom).isSome = true
  · rw [if_pos h, countId_domUpdateFirst]
    have := countId_pos_of_lookup h
    omega
  · rw [if_neg h]
    have hn : List.lookup i dom = none := by
      cases hl : List.lookup i dom
      · rfl
      · rw [hl] at h
        simp at h
    have h0 := countId_zero_of_lookup_none hn
    simp only [countId, List.countP_append, List.countP_cons]
    unfold countId at h0
    rw [h0]
    simp

/-! ## Hex-digest lemmas -/

theorem hexChar_mem (n : Nat) : hexChar n ∈ hexDigits := by
  by_cases h : n < 16
  · interval_cases n <;> decide
  · unfold hexChar
    rw [List.getD_eq_default]
    · decide
    · have h16 : hexDigits.length = 16 := rfl
      omega

theorem length_bytesToHex (bs : List Nat) :
    (bytesToHex bs).length = 2 * bs.length := by
  induction bs with
  | nil => rfl
  | cons b t ih =>
    simp only [bytesToHex] at *
    rw [show (b :: t).bind (fun b => [hexChar (b / 16), hexChar (b % 16)]) =
      [hexChar (b / 16), hexChar (b % 16)] ++
        t.bind (fun b => [hexChar (b / 16), hexChar (b % 16)]) from rfl]
    simp only [List.length_append, List.length_cons, List.length_nil, ih]
    omega

theorem mem_bytesToHex (bs : List Nat) (c : Char) (hc : c ∈ bytesToHex bs) :
    ∃ n, c = hexChar n := by
  obtain ⟨b, _, hcb⟩ := List.mem_bind.mp hc
  rcases List.mem_cons.mp hcb with h1 | h1
  · exact ⟨b / 16, h1⟩
  · exact ⟨b % 16, List.mem_singleton.mp h1⟩

theorem length_sha256Bytes (msg : List Nat) : (sha256Bytes msg).length = 32 := by
  simp [sha256Bytes, wordBytes]

/-! ## Concrete test environments and reachable states -/

/-- An environment whose native compiler reports an error list but still
returns code (and whose reads succeed). -/
def envBad : CompileEnv :=
  { readFile := fun _ => some "x",
    compileSfc := fun _ _ _ => Except.ok ⟨"code", none, ["boom"], []⟩ }

/-- An environment whose compiles succeed with no errors. -/
def envOk : CompileEnv :=
  { readFile := fun _ => some "<template></template>",
    compileSfc := fun _ _ _ => Except.ok ⟨"export default 0", none, [], []⟩ }

/-- The state after a startup scan that discovered one file. -/
def stateA : PluginState := buildStartFn envOk ["/a.vue"] initState

/-- The state after additionally resolving that file's id. -/
def stateB : PluginState := (resolveIdFn stateA "/a.vue" none).2

theorem reachable_stateA : Reachable stateA :=
  Reachable.step initState stateA Reachable.init
    (Step.buildStart initState envOk ["/a.vue"])

theorem reachable_stateB : Reachable stateB :=
  Reachable.step stateA stateB reachable_stateA
    (Step.resolveId stateA "/a.vue" none)

/-! ## Claims -/

/-- C7: generateScopeId is a pure function of the path string alone (so
repeated calls agree by definitional determinism), and for every path it
returns a string of exactly 8 characters, each a lowercase hexadecimal
digit. -/
theorem c7_generateScopeId_hex8 (p : String) :
    (generateScopeId p).length = 8 ∧
    ((generateScopeId p).data.all (fun c => decide (c ∈ hexDigits))) = true := by
  have hlen : (sha256Hex p).data.length = 64 := by
    show (bytesToHex (sha256Bytes (utf8Bytes p))).length = 64
    rw [length_bytesToHex, length_sha256Bytes]
  constructor
  · show ((sha256Hex p).data.take 8).length = 8
    rw [List.length_take, hlen]
    rfl
  · apply List.all_eq_true.mpr
    intro c hc
    have hc1 : c ∈ (sha256Hex p).data.take 8 := hc
    have hc2 : c ∈ (sha256Hex p).data := List.take_subset _ _ hc1
    have hc3 : c ∈ bytesToHex (sha256Bytes (utf8Bytes p)) := hc2
    obtain ⟨n, rfl⟩ := mem_bytesToHex _ _ hc3
    exact decide_eq_true (hexChar_mem n)

/-- C10: the default-export rewrite replaces exactly the leftmost
occurrence of the marker with the local binding, keeps the rest of the
code (any later occurrences included) verbatim, and appends exactly one
re-export statement; for a production build of an artifact without css
this rewrite is the whole generateOutput result. -/
theorem c10_rewrite_first_occurrence (code : String)
    (h : hasDefaultExport code = true) :
    (∃ a b : List Char,
      code.data = a ++ EXPORT_MARKER.data ++ b ∧
      (rewriteExportDefault code).data =
        (a ++ ("const _sfc_main =").data ++ b) ++
          ("\nexport default _sfc_main;").data ∧
      (∀ a2 b2 : List Char, code.data = a2 ++ EXPORT_MARKER.data ++ b2 →
        a.length ≤ a2.length)) ∧
    (∀ scopeId hasScoped,
      generateOutput ⟨code, none, scopeId, hasScoped⟩ true false =
        rewriteExportDefault code) := by
  constructor
  · have hp : EXPORT_MARKER.data ≠ [] := by decide
    obtain ⟨a, b, hab, hrep, hmin⟩ :=
      replaceFirstL_spec EXPORT_MARKER.data ("const _sfc_main =").data hp
        code.data h
    refine ⟨a, b, hab, ?_, hmin⟩
    unfold rewriteExportDefault
    rw [if_pos h]
    rw [String.data_append]
    rw [show (replaceFirstS code EXPORT_MARKER "const _sfc_main =").data =
      replaceFirstL EXPORT_MARKER.data ("const _sfc_main =").data code.data
      from rfl]
    rw [hrep]
  · intro scopeId hasScoped
    unfold generateOutput baseOutput
    simp [jsTruthy]

/-- C6: generateOutput appends the HMR acceptance block exactly when the
build is not production, a dev server is active, and the code contains
the default-export marker; the block interpolates the artifact's scopeId
as the hot-reload identifier, and the emitted accept callback does
nothing on an absent updated module, reloading under that identifier
only when a module arrives and the framework runtime is present. -/
theorem c6_hmr_condition (c : CompiledModule) (p d : Bool) :
    generateOutput c p d =
      baseOutput c ++
        (if !p && d && hasDefaultExport c.code then hmrBlock c.scopeId
         else "") ∧
    hmrBlock c.scopeId = hmrBlockPre ++ jsonString c.scopeId ++ hmrBlockPost ∧
    (∀ rt, hmrAccept c.scopeId none rt = HmrAction.noop) ∧
    (∀ m, hmrAccept c.scopeId (some m) true =
      HmrAction.reload c.scopeId m.defaultExport) ∧
    (∀ m, hmrAccept c.scopeId (some m) false = HmrAction.noop) := by
  refine ⟨?_, rfl, fun rt => rfl, fun m => rfl, fun m => rfl⟩
  unfold generateOutput
  by_cases hcond : (!p && d && hasDefaultExport c.code) = true
  · rw [if_pos hcond, if_pos hcond]
  · rw [if_neg hcond, if_neg hcond, String.append_empty]

/-- A code text with two occurrences of the default-export marker. -/
def c10code : String := "export default A;\nexport default B;"

/-- Witness for C10 at a concrete code text containing two occurrences of
the marker. -/
theorem c10_witness :
    hasDefaultExport c10code = true ∧
    ((∃ a b : List Char,
      c10code.data = a ++ EXPORT_MARKER.data ++ b ∧
      (rewriteExportDefault c10code).data =
        (a ++ ("const _sfc_main =").data ++ b) ++
          ("\nexport default _sfc_main;").data ∧
      (∀ a2 b2 : List Char, c10code.data = a2 ++ EXPORT_MARKER.data ++ b2 →
        a.length ≤ a2.length)) ∧
    (∀ scopeId hasScoped,
      generateOutput ⟨c10code, none, scopeId, hasScoped⟩ true false =
        rewriteExportDefault c10code)) :=
  ⟨by decide, c10_rewrite_first_occurrence c10code (by decide)⟩

/-- C5: when css is present, generateOutput starts with the style block
whose element id is the deterministic function vize-style-(scopeId) of
the scopeId alone; in the DOM semantics of that block, injecting under
one element id leaves exactly one element with that id (when none
existed) and a repeated injection never adds a second one - it rewrites
the text of the first. -/
theorem c5_style_dedup (c : CompiledModule) (p d : Bool) (css : String)
    (hcss : c.css = some css) (hne : css ≠ "")
    (dom : List (String × String)) (t1 t2 : String) :
    (∃ rest, generateOutput c p d = cssBlock css c.scopeId ++ rest) ∧
    styleElemId c.scopeId = "vize-style-" ++ c.scopeId ∧
    countId (styleInject dom (styleElemId c.scopeId) t1)
        (styleElemId c.scopeId) =
      max (countId dom (styleElemId c.scopeId)) 1 ∧
    countId
        (styleInject (styleInject dom (styleElemId c.scopeId) t1)
          (styleElemId c.scopeId) t2) (styleElemId c.scopeId) =
      countId (styleInject dom (styleElemId c.scopeId) t1)
        (styleElemId c.scopeId) := by
  refine ⟨?_, rfl, countId_styleInject dom _ t1, ?_⟩
  · have hjt : jsTruthy c.css = true := by
      rw [hcss]
      exact bne_iff_ne.mpr hne
    have hbase : baseOutput c =
        cssBlock css c.scopeId ++ rewriteExportDefault c.code := by
      unfold baseOutput
      rw [if_pos hjt, hcss]
      rfl
    unfold generateOutput
    by_cases hcond : (!p && d && hasDefaultExport c.code) = true
    · rw [if_pos hcond, hbase]
      exact ⟨rewriteExportDefault c.code ++ hmrBlock c.scopeId,
        by rw [String.append_assoc]⟩
    · rw [if_neg hcond, hbase]
      exact ⟨rewriteExportDefault c.code, rfl⟩
  · rw [countId_styleInject, countId_styleInject]
    omega

/-- A concrete artifact with css and a default export. -/
def c5mod : CompiledModule :=
  ⟨"export default A", some "p \x7b color: red \x7d", "abcd1234", false⟩

/-- Witness for C5 at a concrete artifact and an empty document. -/
theorem c5_witness :
    c5mod.css = some "p \x7b color: red \x7d" ∧
    ("p \x7b color: red \x7d" : String) ≠ "" ∧
    ((∃ rest, generateOutput c5mod false true =
      cssBlock "p \x7b color: red \x7d" c5mod.scopeId ++ rest) ∧
    styleElemId c5mod.scopeId = "vize-style-" ++ c5mod.scopeId ∧
    countId (styleInject [] (styleElemId c5mod.scopeId) "a")
        (styleElemId c5mod.scopeId) =
      max (countId [] (styleElemId c5mod.scopeId)) 1 ∧
    countId
        (styleInject (styleInject [] (styleElemId c5mod.scopeId) "a")
          (styleElemId c5mod.scopeId) "b") (styleElemId c5mod.scopeId) =
      countId (styleInject [] (styleElemId c5mod.scopeId) "a")
        (styleElemId c5mod.scopeId)) :=
  ⟨rfl, by decide,
    c5_style_dedup c5mod false true "p \x7b color: red \x7d" rfl (by decide)
      [] "a" "b"⟩

/-- C1 (counterexample): the compiler reports a non-empty error list for
a path with no prior cache entry, yet compileFile still creates an entry
for it - refuting the claim that the cache is left untouched on errors. -/
theorem c1_counterexample :
    reportsErrors envBad "/a.vue" = true ∧
    mapHas ([] : List (String × CompiledModule)) "/a.vue" = false ∧
    (compileFileM envBad "/a.vue" [] none).map
      (fun r => mapHas r.2 "/a.vue") = some true :=
  ⟨rfl, rfl, rfl⟩

/-- C1 (amended): whenever compileFile returns (i.e. neither the read nor
the native call threw), the cache entry for the path is set to the fresh
artifact - also when the returned error list is non-empty; a prior entry
is replaced, a missing one is created. -/
theorem c1_cache_set_on_return (env : CompileEnv) (filePath : String)
    (cache : List (String × CompiledModule)) (src : Option String)
    (m : CompiledModule) (c2 : List (String × CompiledModule))
    (h : compileFileM env filePath cache src = some (m, c2)) :
    c2 = mapSet cache filePath m ∧ mapGet c2 filePath = some m := by
  have hs := compileFileM_shape env filePath cache src m c2 h
  refine ⟨hs, ?_⟩
  rw [hs, mapGet_mapSet]
  simp

/-- The artifact envBad produces for /a.vue from the source text x. -/
def c1mod : CompiledModule :=
  ⟨"code", none, generateScopeId "/a.vue", hasScopedMarker "x"⟩

/-- Witness for C1 (amended) at the error-reporting environment. -/
theorem c1_witness :
    compileFileM envBad "/a.vue" [] (some "x") =
      some (c1mod, mapSet [] "/a.vue" c1mod) ∧
    (mapSet [] "/a.vue" c1mod = mapSet [] "/a.vue" c1mod ∧
      mapGet (mapSet [] "/a.vue" c1mod) "/a.vue" = some c1mod) :=
  ⟨rfl, c1_cache_set_on_return envBad "/a.vue" [] (some "x") c1mod
    (mapSet [] "/a.vue" c1mod) rfl⟩

/-- C2 (counterexample): one discovered file whose compile reports an
error; the claim predicts N - E = 0 cache entries, but the pass leaves 1. -/
theorem c2_counterexample :
    (["/a.vue"] : List String).length = 1 ∧
    (["/a.vue"] : List String).countP (reportsErrors envBad) = 1 ∧
    (compileAllFn envBad ["/a.vue"] []).1.length = 1 ∧
    (compileAllFn envBad ["/a.vue"] []).1.length ≠
      (["/a.vue"] : List String).length -
        (["/a.vue"] : List String).countP (reportsErrors envBad) :=
  ⟨rfl, rfl, rfl, by decide⟩

/-- C2 (amended): after the startup pass over N distinct files the cache
holds exactly one entry per file whose compile attempt did not throw -
N minus the number of thrown attempts (the two logged counters agreeing);
attempts that merely report compile errors still populate the cache. -/
theorem c2_cache_population (env : CompileEnv) (files : List String)
    (hnd : files.Nodup) :
    (compileAllFn env files []).1.length = files.countP (compileOk env) ∧
    (compileAllFn env files []).2.1 = files.countP (compileOk env) ∧
    (compileAllFn env files []).2.2 =
      files.length - files.countP (compileOk env) := by
  have h := compileAllGo_spec env files [] 0 0 hnd (fun f _ => rfl)
  simpa [compileAllFn] using h

/-- Witness for C2 (amended) over two distinct files. -/
theorem c2_witness :
    (["/a.vue", "/b.vue"] : List String).Nodup ∧
    ((compileAllFn envOk ["/a.vue", "/b.vue"] []).1.length =
      (["/a.vue", "/b.vue"] : List String).countP (compileOk envOk) ∧
    (compileAllFn envOk ["/a.vue", "/b.vue"] []).2.1 =
      (["/a.vue", "/b.vue"] : List String).countP (compileOk envOk) ∧
    (compileAllFn envOk ["/a.vue", "/b.vue"] []).2.2 =
      (["/a.vue", "/b.vue"] : List String).length -
        (["/a.vue", "/b.vue"] : List String).countP (compileOk envOk)) :=
  ⟨by decide, c2_cache_population envOk ["/a.vue", "/b.vue"] (by decide)⟩

/-- C3 (counterexample): an id carrying the style query does not end in
.vue, yet resolveId answers with the id itself instead of null. -/
theorem c3_counterexample :
    endsWithS "/a.css?vue&type=style" ".vue" = false ∧
    (resolveIdFn initState "/a.css?vue&type=style" none).1 =
      some "/a.css?vue&type=style" :=
  ⟨by decide, rfl⟩

/-- C3 (amended): for every id *not* carrying the style-query marker
(style-query ids are returned unchanged, which the original claim
misses), resolveId answers null unless the id ends in .vue and its
resolved path has a cache entry, and any virtual id it hands out is the
sentinel plus a cached resolved path. -/
theorem c3_resolveId_refusal (s : PluginState) (id : String)
    (importer : Option String)
    (hq : containsS id "?vue&type=style" = false) :
    (endsWithS id ".vue" = false → (resolveIdFn s id importer).1 = none) ∧
    (mapHas s.cache (resolveVuePath s id importer) = false →
      (resolveIdFn s id importer).1 = none) ∧
    (∀ vid, (resolveIdFn s id importer).1 = some vid →
      endsWithS id ".vue" = true ∧
      mapHas s.cache (resolveVuePath s id importer) = true ∧
      vid = toVirtualId (resolveVuePath s id importer)) := by
  unfold resolveIdFn
  rw [if_neg (by rw [hq]; exact Bool.false_ne_true)]
  by_cases hv : endsWithS id ".vue" = true
  · rw [if_pos hv]
    by_cases hm : mapHas s.cache (resolveVuePath s id importer) = true
    · rw [if_pos hm]
      refine ⟨fun hfalse => absurd hv (by rw [hfalse]; exact Bool.false_ne_true),
        fun hmf => absurd hm (by rw [hmf]; exact Bool.false_ne_true), ?_⟩
      intro vid hvid
      refine ⟨hv, hm, ?_⟩
      have := Option.some.inj hvid
      rw [← this]
      rfl
    · rw [if_neg hm]
      exact ⟨fun _ => rfl, fun _ => rfl, fun vid hvid => absurd hvid (by simp)⟩
  · rw [if_neg hv]
    exact ⟨fun _ => rfl, fun _ => rfl, fun vid hvid => absurd hvid (by simp)⟩

/-- Witness for C3 (amended) at a non-component id. -/
theorem c3_witness :
    containsS "/x.js" "?vue&type=style" = false ∧
    ((endsWithS "/x.js" ".vue" = false →
      (resolveIdFn initState "/x.js" none).1 = none) ∧
    (mapHas initState.cache (resolveVuePath initState "/x.js" none) = false →
      (resolveIdFn initState "/x.js" none).1 = none) ∧
    (∀ vid, (resolveIdFn initState "/x.js" none).1 = some vid →
      endsWithS "/x.js" ".vue" = true ∧
      mapHas initState.cache (resolveVuePath initState "/x.js" none) = true ∧
      vid = toVirtualId (resolveVuePath initState "/x.js" none))) :=
  ⟨by decide, c3_resolveId_refusal initState "/x.js" none (by decide)⟩

/-- C4: in every reachable plugin state, forming the virtual id of a
cached path and decoding it back (table lookup with prefix-strip
fallback) returns the original path unchanged. -/
theorem c4_virtual_roundtrip (s : PluginState) (path : String)
    (hr : Reachable s) (hc : mapHas s.cache path = true) :
    toRealPath s (toVirtualId path) = path := by
  unfold toRealPath
  cases hvt : mapGet s.virtualToReal (toVirtualId path) with
  | none =>
    show dropSentinel (toVirtualId path) = path
    exact dropSentinel_append path
  | some v =>
    have hm : (toVirtualId path, v) ∈ s.virtualToReal :=
      lookup_mem _ _ _ hvt
    have hwf := reachable_regWellFormed hr _ hm
    have hpv : path = v := by
      apply string_append_left_cancel (a := VIRTUAL_SENTINEL)
      exact hwf
    rw [← hpv]
    rfl

/-- Witness for C4 at a reachable state holding one cache entry. -/
theorem c4_witness :
    Reachable stateA ∧ mapHas stateA.cache "/a.vue" = true ∧
    toRealPath stateA (toVirtualId "/a.vue") = "/a.vue" :=
  ⟨reachable_stateA, rfl,
    c4_virtual_roundtrip stateA "/a.vue" reachable_stateA rfl⟩

/-- C8: in every reachable state, every key of the virtual-to-real table
is the sentinel followed by exactly its value, so decoding by prefix
stripping agrees with decoding by table lookup wherever both exist. -/
theorem c8_registry_invariant (s : PluginState) (k v : String)
    (hr : Reachable s) (hm : (k, v) ∈ s.virtualToReal) :
    k = VIRTUAL_SENTINEL ++ v ∧ dropSentinel k = v := by
  have h1 : k = VIRTUAL_SENTINEL ++ v := reachable_regWellFormed hr (k, v) hm
  exact ⟨h1, by rw [h1, dropSentinel_append]⟩

/-- Witness for C8 at a reachable state with a populated table. -/
theorem c8_witness :
    Reachable stateB ∧
    (toVirtualId "/a.vue", "/a.vue") ∈ stateB.virtualToReal ∧
    (toVirtualId "/a.vue" = VIRTUAL_SENTINEL ++ "/a.vue" ∧
      dropSentinel (toVirtualId "/a.vue") = "/a.vue") := by
  have hm : (toVirtualId "/a.vue", "/a.vue") ∈ stateB.virtualToReal := by
    decide
  exact ⟨reachable_stateB, hm,
    c8_registry_invariant stateB (toVirtualId "/a.vue") "/a.vue"
      reachable_stateB hm⟩

/-- C9: load on an id carrying the style query never answers null - it
returns the cached css string when the resolved path's artifact has
non-empty css, and the empty string when the artifact has empty or
absent css, or when there is no cache entry at all. -/
theorem c9_style_load (s : PluginState) (id : String)
    (hq : containsS id "?vue&type=style" = true) :
    loadFn s id ≠ LoadResult.jsNull ∧
    (∀ compiled css, mapGet s.cache (styleRealPath s id) = some compiled →
      compiled.css = some css → css ≠ "" →
      loadFn s id = LoadResult.text css) ∧
    (∀ compiled, mapGet s.cache (styleRealPath s id) = some compiled →
      compiled.css = none ∨ compiled.css = some "" →
      loadFn s id = LoadResult.text "") ∧
    (mapGet s.cache (styleRealPath s id) = none →
      loadFn s id = LoadResult.text "") := by
  have hbody : loadFn s id =
      match mapGet s.cache (styleRealPath s id) with
      | some compiled =>
        match compiled.css with
        | some css =>
          if css != "" then LoadResult.text css else LoadResult.text ""
        | none => LoadResult.text ""
      | none => LoadResult.text "" := by
    unfold loadFn
    rw [if_pos hq]
  refine ⟨?_, ?_, ?_, ?_⟩
  · rw [hbody]
    rcases mapGet s.cache (styleRealPath s id) with _ | compiled
    · simp
    · obtain ⟨cc, ccss, csid, chs⟩ := compiled
      rcases ccss with _ | css
      · simp
      · by_cases hc : (css != "") = true
        · simp [hc]
        · simp [hc]
  · intro compiled css h1 h2 hne
    rw [hbody, h1]
    simp [h2, bne_iff_ne, hne]
  · intro compiled h1 hor
    rcases hor with h2 | h2 <;> rw [hbody, h1] <;> simp [h2]
  · intro h1
    rw [hbody, h1]

/-- Witness for C9: a style-query id over a state whose artifact has no
css. -/
theorem c9_witness :
    containsS "/a.vue?vue&type=style" "?vue&type=style" = true ∧
    (loadFn stateA "/a.vue?vue&type=style" ≠ LoadResult.jsNull ∧
    (∀ compiled css,
      mapGet stateA.cache (styleRealPath stateA "/a.vue?vue&type=style") =
        some compiled →
      compiled.css = some css → css ≠ "" →
      loadFn stateA "/a.vue?vue&type=style" = LoadResult.text css) ∧
    (∀ compiled,
      mapGet stateA.cache (styleRealPath stateA "/a.vue?vue&type=style") =
        some compiled →
      compiled.css = none ∨ compiled.css = some "" →
      loadFn stateA "/a.vue?vue&type=style" = LoadResult.text "") ∧
    (mapGet stateA.cache (styleRealPath stateA "/a.vue?vue&type=style") =
        none →
      loadFn stateA "/a.vue?vue&type=style" = LoadResult.text "")) :=
  ⟨by decide, c9_style_load stateA "/a.vue?vue&type=style" (by decide)⟩
